import Mathlib

/-!
# Verification of the BI-Mobiliario dashboard core logic

Shallow embedding of the repository's two source files:

* `app.py`  — sheet merging, column aliasing (`norm`, `mapear_colunas`),
  the five-step chained filter engine, and the chart numeric coercion
  (`to_number`);
* `auth.py` — credential loading (`_load_from_secrets`, `_load_from_json`,
  `_load_credentials`), `authenticate` and `add_user`.

Python strings are modelled as Lean `String`s; `None`-able cell values as
`Option String`; dataframes as lists of association-list rows together with
an explicit column list; external effects (bcrypt, the secrets store, the
json file) as explicit parameters or state fields.
-/

set_option maxHeartbeats 1000000

namespace BIApp

/-- First-match association-list lookup, modelling Python `dict.get` /
`dict[...]` reads (a Python dict has unique keys, so first-match agrees
with the dict semantics). -/
def alook {κ α : Type} [DecidableEq κ] : List (κ × α) → κ → Option α
  | [], _ => none
  | (k, v) :: t, key => if k = key then some v else alook t key

theorem alook_mem {κ α : Type} [DecidableEq κ] {m : List (κ × α)} {k : κ} {v : α}
    (h : alook m k = some v) : (k, v) ∈ m := by
  induction m with
  | nil => simp [alook] at h
  | cons p t ih =>
    obtain ⟨pk, pv⟩ := p
    by_cases hk : pk = k
    · subst hk
      simp [alook] at h
      simp [h]
    · simp [alook, hk] at h
      exact List.mem_cons_of_mem _ (ih h)

theorem alook_cons {κ α : Type} [DecidableEq κ] (pk k : κ) (pv : α) (t : List (κ × α)) :
    alook ((pk, pv) :: t) k = if pk = k then some pv else alook t k := rfl

/-- Key-overwriting insertion, modelling Python `dict[k] = v`:
replaces the first binding of `k` if present, otherwise appends. -/
def dinsert {κ α : Type} [DecidableEq κ] : List (κ × α) → κ → α → List (κ × α)
  | [], k, v => [(k, v)]
  | (pk, pv) :: t, k, v => if pk = k then (k, v) :: t else (pk, pv) :: dinsert t k v

theorem dinsert_of_alook_none {κ α : Type} [DecidableEq κ] {m : List (κ × α)} {k : κ}
    (h : alook m k = none) (v : α) : dinsert m k v = m ++ [(k, v)] := by
  induction m with
  | nil => rfl
  | cons p t ih =>
    obtain ⟨pk, pv⟩ := p
    by_cases hk : pk = k
    · simp [alook, hk] at h
    · simp [alook, hk] at h
      simp [dinsert, hk, ih h]

/-! ## Text normalization (`app.py` lines 135-138)

```python
def norm(s: str) -> str:
    s = str(s or "").strip().lower()
    return unicodedata.normalize("NFKD", s).encode("ascii", "ignore").decode("utf-8")
```

`pyStrip` models `str.strip()`, `lowerChar` models per-character `str.lower()`
on the character repertoire this spreadsheet application uses (ASCII plus the
Latin-1 accented letters appearing in the sources), and `foldChar` models the
composition of NFKD decomposition with `encode("ascii","ignore")`: an ASCII
character survives unchanged, an accented letter decomposes to its base letter
followed by a combining mark that the ascii encoding drops, and a non-ASCII
character with no decomposition (for example the degree sign) is dropped
entirely. -/

/-- Python `str.isspace` characters relevant to `str.strip()` (ASCII range). -/
def pyWs (c : Char) : Bool :=
  c == ' ' || c == '\t' || c == '\n' || c == '\x0d' || c == '\x0b' || c == '\x0c'

/-- `str.strip()`: drop whitespace from both ends. -/
def pyStrip (l : List Char) : List Char :=
  ((l.dropWhile pyWs).reverse.dropWhile pyWs).reverse

/-- Case-lowering table: ASCII `A`-`Z` plus the accented capitals used in the
spreadsheet headers. -/
def lowerPairs : List (Char × Char) :=
  [('A','a'),('B','b'),('C','c'),('D','d'),('E','e'),('F','f'),('G','g'),
   ('H','h'),('I','i'),('J','j'),('K','k'),('L','l'),('M','m'),('N','n'),
   ('O','o'),('P','p'),('Q','q'),('R','r'),('S','s'),('T','t'),('U','u'),
   ('V','v'),('W','w'),('X','x'),('Y','y'),('Z','z'),
   ('Á','á'),('À','à'),('Â','â'),('Ã','ã'),('Ä','ä'),
   ('É','é'),('È','è'),('Ê','ê'),('Ë','ë'),
   ('Í','í'),('Ì','ì'),('Î','î'),('Ï','ï'),
   ('Ó','ó'),('Ò','ò'),('Ô','ô'),('Õ','õ'),('Ö','ö'),
   ('Ú','ú'),('Ù','ù'),('Û','û'),('Ü','ü'),
   ('Ç','ç'),('Ñ','ñ')]

/-- Per-character `str.lower()`. -/
def lowerChar (c : Char) : Char := (alook lowerPairs c).getD c

/-- NFKD decompositions (restricted to their ASCII residue) of the non-ASCII
characters in the application's repertoire.  The masculine/feminine ordinal
indicators decompose to plain letters; accented letters lose their accent. -/
def foldPairs : List (Char × List Char) :=
  [('á',['a']),('à',['a']),('â',['a']),('ã',['a']),('ä',['a']),
   ('é',['e']),('è',['e']),('ê',['e']),('ë',['e']),
   ('í',['i']),('ì',['i']),('î',['i']),('ï',['i']),
   ('ó',['o']),('ò',['o']),('ô',['o']),('õ',['o']),('ö',['o']),
   ('ú',['u']),('ù',['u']),('û',['u']),('ü',['u']),
   ('ç',['c']),('ñ',['n']),('º',['o']),('ª',['a'])]

/-- NFKD + `encode("ascii","ignore")` for one character: ASCII survives,
a decomposable character leaves its ASCII base, anything else (degree sign
`°`, etc.) is dropped. -/
def foldChar (c : Char) : List Char :=
  if c.toNat ≤ 127 then [c] else (alook foldPairs c).getD []

def pyLower (l : List Char) : List Char := l.map lowerChar

def asciiFold (l : List Char) : List Char := l.flatMap foldChar

/-- `norm` from `app.py`: strip, lowercase, strip diacritics / non-ASCII. -/
def norm (s : String) : String := String.mk (asciiFold (pyLower (pyStrip s.data)))

/-! ### Facts about `norm` used for the idempotence claim -/

theorem lowerChar_idem (c : Char) : lowerChar (lowerChar c) = lowerChar c := by
  unfold lowerChar
  cases h : alook lowerPairs c with
  | none => simp [h]
  | some v =>
    simp only [Option.getD_some]
    have hv : (c, v) ∈ lowerPairs := alook_mem h
    have hall : ∀ p ∈ lowerPairs, alook lowerPairs p.2 = none := by decide
    simp [hall (c, v) hv]

/-- Characters produced by `foldChar ∘ lowerChar` are ASCII fixed points of
both `lowerChar` and `foldChar`. -/
theorem foldChar_lowerChar_good (c : Char) :
    ∀ d ∈ foldChar (lowerChar c), lowerChar d = d ∧ foldChar d = [d] := by
  intro d hd
  unfold foldChar at hd
  by_cases hascii : (lowerChar c).toNat ≤ 127
  · simp [hascii] at hd
    subst hd
    refine ⟨lowerChar_idem c, ?_⟩
    simp [foldChar, hascii]
  · simp [hascii] at hd
    cases h : alook foldPairs (lowerChar c) with
    | none => simp [h] at hd
    | some L =>
      simp [h] at hd
      have hmem : (lowerChar c, L) ∈ foldPairs := alook_mem h
      have hall : ∀ p ∈ foldPairs, ∀ d ∈ p.2,
          lowerChar d = d ∧ foldChar d = [d] := by decide
      exact hall (lowerChar c, L) hmem d hd

theorem norm_chars_good (s : String) :
    ∀ d ∈ (norm s).data, lowerChar d = d ∧ foldChar d = [d] := by
  intro d hd
  simp only [norm, asciiFold, pyLower] at hd
  rw [List.mem_flatMap] at hd
  obtain ⟨e, he, hde⟩ := hd
  rw [List.mem_map] at he
  obtain ⟨c, _, hc⟩ := he
  subst hc
  exact foldChar_lowerChar_good c d hde

theorem asciiFold_pyLower_fix {l : List Char}
    (h : ∀ d ∈ l, lowerChar d = d ∧ foldChar d = [d]) :
    asciiFold (pyLower l) = l := by
  induction l with
  | nil => rfl
  | cons c t ih =>
    have hc := h c (List.mem_cons_self c t)
    have ht : ∀ d ∈ t, lowerChar d = d ∧ foldChar d = [d] :=
      fun d hd => h d (List.mem_cons_of_mem c hd)
    simp [asciiFold, pyLower] at ih ⊢
    rw [hc.1, hc.2]
    simpa using ih ht

theorem mem_pyStrip {l : List Char} {d : Char} (h : d ∈ pyStrip l) : d ∈ l := by
  unfold pyStrip at h
  rw [List.mem_reverse] at h
  have h2 := (List.dropWhile_sublist (l := (l.dropWhile pyWs).reverse) (p := pyWs)).subset h
  rw [List.mem_reverse] at h2
  exact (List.dropWhile_sublist (l := l) (p := pyWs)).subset h2

/-- **C9 (amended).** `norm` is not idempotent in general: a second
application can still strip whitespace that became leading/trailing after
non-decomposable non-ASCII characters (such as `°`) were dropped.  Precisely,
`norm (norm s)` equals `norm s` with surrounding whitespace stripped, so
idempotence holds exactly on inputs whose normal form is already stripped. -/
theorem norm_norm_eq_strip_norm (s : String) :
    norm (norm s) = String.mk (pyStrip (norm s).data) := by
  have h : ∀ d ∈ pyStrip (norm s).data, lowerChar d = d ∧ foldChar d = [d] :=
    fun d hd => norm_chars_good s d (mem_pyStrip hd)
  show String.mk (asciiFold (pyLower (pyStrip (norm s).data))) = _
  rw [asciiFold_pyLower_fix h]

/-- **C9 (counterexample).** On `"a °"` the first `norm` drops the degree sign
(which has no NFKD decomposition, so `encode("ascii","ignore")` deletes it),
leaving the trailing space `"a "`; the second `norm` strips that space, so
`norm (norm x) ≠ norm x`. -/
theorem norm_not_idempotent :
    norm "a °" = "a " ∧ norm (norm "a °") = "a" ∧ norm (norm "a °") ≠ norm "a °" := by
  refine ⟨by decide, by decide, by decide⟩

/-! ## Column aliasing (`app.py` lines 94-163)

`ALVO_NOMES` is the literal alias table from the source.  `mapear_colunas`
iterates over it; `mapear_campo` is the body for one target field:

```python
achou = None
for c, cn in cols_norm.items():          # exact pass
    if any(cn == norm(a) for a in aliases): achou = c; break
if not achou:                            # falsy: None OR ""
    for c, cn in cols_norm.items():      # substring pass
        if any(norm(a) in cn for a in aliases): achou = c; break
if achou:                                # falsy result is dropped
    mapeamento[alvo] = achou
```

Note the Python truthiness tests: a column literally named `""` is falsy. -/

/-- Alias table `ALVO_NOMES` (`app.py` lines 94-115), verbatim. -/
def ALVO_NOMES : List (String × List String) :=
  [("DESCRIÇÃO DO ITEM RESUMIDA",
    ["descrição do item resumida", "descricao do item resumida", "descricao", "resumida", "item"]),
   ("UNIDADE DE DESTINO",
    ["unidade de destino", "unidades de destino", "unidade destino", "unidade", "destino",
     "projeto das equipagem das unidades"]),
   ("N° DA OF",
    ["n° da of", "nº da of", "no da of", "n da of",
     "n° of", "nº of", "no of", "n of", "of"]),
   ("QUANTIDADE ENTREGUE NA UNIDADE",
    ["quantidade entregue na unidade", "QUANT. ENTREGUE NA UNIDADE",
     "quantidade entregue", "quantidade", "qtd", "quant.", "quant"]),
   ("QUANTIDADE NA ATA E CONSUMO",
    ["quantidade na ata e consumo", "qtd na ata e consumo", "quantidade na ata",
     "quantidade", "qtd", "quant.", "quant"])]

/-- The canonical field names: the keys of `ALVO_NOMES`. -/
def ALVO_KEYS : List String := ALVO_NOMES.map (·.1)

/-- Membership test of Python substring `a in b` (contiguous). -/
def isPrefB : List Char → List Char → Bool
  | [], _ => true
  | _ :: _, [] => false
  | a :: as, b :: bs => a == b && isPrefB as bs

def isInfB (n : List Char) : List Char → Bool
  | [] => isPrefB n []
  | b :: bs => isPrefB n (b :: bs) || isInfB n bs

/-- `any(cn == norm(a) for a in aliases)` at column `c`. -/
def exactMatchB (aliases : List String) (c : String) : Bool :=
  aliases.any (fun a => norm c == norm a)

/-- `any(norm(a) in cn for a in aliases)` at column `c`. -/
def subMatchB (aliases : List String) (c : String) : Bool :=
  aliases.any (fun a => isInfB (norm a).data (norm c).data)

/-- Python truthiness of an optional string (`None` and `""` are falsy). -/
def truthyStr (o : Option String) : Bool :=
  match o with
  | none => false
  | some s => !(s == "")

/-- One iteration of the `mapear_colunas` loop: find the column of `cols`
matching one target field with alias list `aliases`, including the two
Python truthiness tests (`if not achou`, `if achou`). -/
def mapear_campo (cols : List String) (aliases : List String) : Option String :=
  let achou0 := cols.find? (exactMatchB aliases)
  let achou := if truthyStr achou0 then achou0 else
    match cols.find? (subMatchB aliases) with
    | some c => some c
    | none => achou0
  if truthyStr achou then achou else none

/-- `mapear_colunas` (`app.py` lines 141-163): canonical field → real column. -/
def mapear_colunas (cols : List String) : List (String × String) :=
  ALVO_NOMES.foldl (fun acc p =>
    match mapear_campo cols p.2 with
    | some c => dinsert acc p.1 c
    | none => acc) []

/-- Modelled from the spec's words (§4.2 match priority), for the refinement
comparison: first exact match in column order, else first substring match in
column order, else no entry. -/
def aliaser_spec (cols aliases : List String) : Option String :=
  match cols.find? (exactMatchB aliases) with
  | some c => some c
  | none => cols.find? (subMatchB aliases)

/-- **C3 (amended).** Provided no column is literally the empty string (the
falsy value that derails Python's `if not achou` / `if achou` tests),
`mapear_campo` returns exactly what the spec describes: the first exact
normalized match in column order, else the first substring match, else
nothing. -/
theorem mapear_campo_refines_spec (cols aliases : List String)
    (h : ∀ c ∈ cols, c ≠ "") :
    mapear_campo cols aliases = aliaser_spec cols aliases := by
  unfold mapear_campo aliaser_spec
  cases hex : cols.find? (exactMatchB aliases) with
  | some c =>
    have hc : c ≠ "" := h c (List.mem_of_find?_eq_some hex)
    have ht : truthyStr (some c) = true := by
      simp [truthyStr, hc]
    simp [ht]
  | none =>
    simp only [truthyStr, Bool.false_eq_true, if_false]
    cases hsub : cols.find? (subMatchB aliases) with
    | some c =>
      have hc : c ≠ "" := h c (List.mem_of_find?_eq_some hsub)
      simp [truthyStr, hc]
    | none => simp [truthyStr]

theorem mapear_campo_refines_spec_witness :
    mapear_campo ["QTD", "UNIDADE"] ["unidade de destino", "unidade"]
      = aliaser_spec ["QTD", "UNIDADE"] ["unidade de destino", "unidade"] :=
  mapear_campo_refines_spec _ _ (by decide)

/-- **C3 (counterexample).** With columns `["x", ""]` and the single alias
`"°"` (whose normal form is the empty string), the exact pass finds the
column `""` — an exact normalized match — but, `""` being falsy, the code
falls through to the substring pass and returns `"x"`, which is *not* an
exact match.  So the claim "an exact match always wins over a substring
match" fails as stated. -/
theorem mapear_campo_exact_overridden :
    mapear_campo ["x", ""] ["°"] = some "x"
      ∧ (["x", ""].find? (exactMatchB ["°"])) = some ""
      ∧ exactMatchB ["°"] "x" = false := by
  refine ⟨by decide, by decide, by decide⟩

/-! ## Chained filter engine (`app.py` lines 328-427)

A dataframe row is an association list from column name to optional (str or
NaN) cell value; filtering `df[df[col] == valor]` keeps the rows whose cell
equals the chosen string (a NaN cell never equals a string). -/

abbrev Row := List (String × Option String)

def getCellR (r : Row) (c : String) : Option String :=
  match alook r c with
  | some v => v
  | none => none

/-- `df_filtrado[df_filtrado[col] == valor]`. -/
def filtra (tbl : List Row) (c : String) (x : String) : List Row :=
  tbl.filter (fun r => getCellR r c == some x)

/-- Step 1 (`app.py` line 363): mandatory column, `(Todos)` modelled as
`none` leaves the table unchanged. -/
def step1 (tbl : List Row) (f1 : String) (v1 : Option String) : List Row :=
  match v1 with
  | none => tbl
  | some x => filtra tbl f1 x

/-- Steps 2-5 (`app.py` lines 372-427): filter only when the chosen column is
not the `"(Nenhum)"` sentinel, is a column of the table, and a concrete value
(not `(Todos)`) was chosen. -/
def stepOpt (cols : List String) (tbl : List Row) (f : String) (v : Option String) :
    List Row :=
  if f != "(Nenhum)" && cols.contains f then
    match v with
    | none => tbl
    | some x => filtra tbl f x
  else tbl

/-- The whole five-step pipeline in source order. -/
def applyFiltros (cols : List String) (tbl : List Row)
    (f1 : String) (v1 : Option String) (f2 : String) (v2 : Option String)
    (f3 : String) (v3 : Option String) (f4 : String) (v4 : Option String)
    (f5 : String) (v5 : Option String) : List Row :=
  stepOpt cols (stepOpt cols (stepOpt cols (stepOpt cols (step1 tbl f1 v1)
    f2 v2) f3 v3) f4 v4) f5 v5

/-- `CAMPOS` (`app.py` lines 335-341), verbatim — note that its second and
third entries differ from the corresponding `ALVO_NOMES` keys
(`"UNIDADES DE DESTINO"` vs `"UNIDADE DE DESTINO"`, `"N° OF"` vs
`"N° DA OF"`). -/
def CAMPOS : List String :=
  ["DESCRIÇÃO DO ITEM RESUMIDA",
   "UNIDADES DE DESTINO",
   "N° OF",
   "QUANTIDADE ENTREGUE NA UNIDADE",
   "QUANTIDADE NA ATA E CONSUMO"]

/-- `opcoes_presentes` (`app.py` line 344): the columns offered at step 1. -/
def opcoes_presentes (cols : List String) : List String :=
  CAMPOS.filter (fun c => cols.contains c)

/-- Modelled from the spec's words (claim C1): the canonical filterable field
names — the keys of the alias table — present as columns. -/
def claimed_step1 (cols : List String) : List String :=
  ALVO_KEYS.filter (fun c => cols.contains c)

/-- `restantes2` … `restantes5` (`app.py` lines 366, 382, 398, 414). -/
def restantes2 (opc : List String) (f1 : String) : List String :=
  opc.filter (fun c => c != f1)

def restantes3 (opc : List String) (f1 f2 : String) : List String :=
  opc.filter (fun c => !(c == f1 || c == f2) && c != "(Nenhum)")

def restantes4 (opc : List String) (f1 f2 f3 : String) : List String :=
  opc.filter (fun c => !(c == f1 || c == f2 || c == f3) && c != "(Nenhum)")

def restantes5 (opc : List String) (f1 f2 f3 f4 : String) : List String :=
  opc.filter (fun c => !(c == f1 || c == f2 || c == f3 || c == f4) && c != "(Nenhum)")

theorem nenhum_not_mem_opcoes (cols : List String) :
    "(Nenhum)" ∉ opcoes_presentes cols := by
  intro h
  rw [opcoes_presentes, List.mem_filter] at h
  exact absurd h.1 (by decide)

/-- **C1 (counterexample).** After the merge the working table always contains
all five `ALVO_NOMES` keys as columns (plus `ABA`), yet step 1 offers only the
three names that `CAMPOS` shares with the alias table: the canonical columns
`"UNIDADE DE DESTINO"` and `"N° DA OF"` are never offered, because `CAMPOS`
spells them `"UNIDADES DE DESTINO"` and `"N° OF"`. -/
theorem step1_options_ne_alias_keys :
    opcoes_presentes (ALVO_KEYS ++ ["ABA"]) ≠ claimed_step1 (ALVO_KEYS ++ ["ABA"])
      ∧ "UNIDADE DE DESTINO" ∈ claimed_step1 (ALVO_KEYS ++ ["ABA"])
      ∧ "UNIDADE DE DESTINO" ∉ opcoes_presentes (ALVO_KEYS ++ ["ABA"]) := by
  refine ⟨by decide, by decide, by decide⟩

/-- **C1 (amended).** The columns offered at the mandatory step 1 are exactly
the members of the literal `CAMPOS` list (which differs from the alias-table
keys in two entries) that are present as columns of the working table; a
concrete value narrows the table to the rows equal to that value, and
`(Todos)` leaves it unchanged. -/
theorem step1_offers_campos_and_filters (cols : List String) (tbl : List Row)
    (f1 : String) :
    (∀ c, c ∈ opcoes_presentes cols ↔ (c ∈ CAMPOS ∧ c ∈ cols))
      ∧ step1 tbl f1 none = tbl
      ∧ (∀ x, step1 tbl f1 (some x)
            = tbl.filter (fun r => getCellR r f1 == some x)) := by
  refine ⟨fun c => ?_, rfl, fun x => rfl⟩
  rw [opcoes_presentes, List.mem_filter]
  simp [List.elem_iff]

theorem step1_offers_campos_witness :
    "N° OF" ∈ opcoes_presentes ["N° OF", "ABA"] :=
  ((step1_offers_campos_and_filters ["N° OF", "ABA"] [] "x").1 "N° OF").2
    ⟨by decide, by decide⟩

/-- **C4 (amended).** The candidate lists of steps 2-5 never contain a column
chosen at an earlier step, and never contain the `"(Nenhum)"` sentinel as a
data column; the sentinel is always offered (it heads each option list), and
choosing it applies no filter at that step — but it does not end the chain:
later steps may still filter (see the counterexample). -/
theorem filter_chain_no_reuse (cols : List String) (f1 f2 f3 f4 : String) :
    f1 ∉ restantes2 (opcoes_presentes cols) f1
      ∧ f1 ∉ restantes3 (opcoes_presentes cols) f1 f2
      ∧ f2 ∉ restantes3 (opcoes_presentes cols) f1 f2
      ∧ f1 ∉ restantes4 (opcoes_presentes cols) f1 f2 f3
      ∧ f2 ∉ restantes4 (opcoes_presentes cols) f1 f2 f3
      ∧ f3 ∉ restantes4 (opcoes_presentes cols) f1 f2 f3
      ∧ f1 ∉ restantes5 (opcoes_presentes cols) f1 f2 f3 f4
      ∧ f2 ∉ restantes5 (opcoes_presentes cols) f1 f2 f3 f4
      ∧ f3 ∉ restantes5 (opcoes_presentes cols) f1 f2 f3 f4
      ∧ f4 ∉ restantes5 (opcoes_presentes cols) f1 f2 f3 f4
      ∧ "(Nenhum)" ∉ restantes2 (opcoes_presentes cols) f1
      ∧ "(Nenhum)" ∉ restantes3 (opcoes_presentes cols) f1 f2
      ∧ "(Nenhum)" ∉ restantes4 (opcoes_presentes cols) f1 f2 f3
      ∧ "(Nenhum)" ∉ restantes5 (opcoes_presentes cols) f1 f2 f3 f4
      ∧ "(Nenhum)" ∈ "(Nenhum)" :: restantes2 (opcoes_presentes cols) f1
      ∧ (∀ tbl v, stepOpt cols tbl "(Nenhum)" v = tbl) := by
  refine ⟨?_, ?_, ?_, ?_, ?_, ?_, ?_, ?_, ?_, ?_, ?_, ?_, ?_, ?_, ?_, ?_⟩
  · simp [restantes2, List.mem_filter]
  · simp [restantes3, List.mem_filter]
  · simp [restantes3, List.mem_filter]
  · simp [restantes4, List.mem_filter]
  · simp [restantes4, List.mem_filter]
  · simp [restantes4, List.mem_filter]
  · simp [restantes5, List.mem_filter]
  · simp [restantes5, List.mem_filter]
  · simp [restantes5, List.mem_filter]
  · simp [restantes5, List.mem_filter]
  · intro h
    rw [restantes2, List.mem_filter] at h
    exact nenhum_not_mem_opcoes cols h.1
  · simp [restantes3, List.mem_filter]
  · simp [restantes4, List.mem_filter]
  · simp [restantes5, List.mem_filter]
  · exact List.mem_cons_self _ _
  · intro tbl v
    simp [stepOpt]

theorem filter_chain_no_reuse_witness :
    "N° OF" ∉ restantes2 (opcoes_presentes ["N° OF"]) "N° OF" :=
  (filter_chain_no_reuse ["N° OF"] "N° OF" "b" "c" "d").1

/-- **C4 (counterexample).** Choosing `"(Nenhum)"` at step 2 does *not* end
the chain: step 3 is still offered and can still narrow the table.  Concretely,
with step 2 = `(Nenhum)` and step 3 = `QUANTIDADE ENTREGUE NA UNIDADE = "1"`,
a two-row table is narrowed to one row, while ending the chain at step 2 would
have kept both rows. -/
theorem nenhum_does_not_end_chain :
    applyFiltros ["DESCRIÇÃO DO ITEM RESUMIDA", "QUANTIDADE ENTREGUE NA UNIDADE"]
        [[("DESCRIÇÃO DO ITEM RESUMIDA", some "x"), ("QUANTIDADE ENTREGUE NA UNIDADE", some "1")],
         [("DESCRIÇÃO DO ITEM RESUMIDA", some "y"), ("QUANTIDADE ENTREGUE NA UNIDADE", some "2")]]
        "DESCRIÇÃO DO ITEM RESUMIDA" none "(Nenhum)" none
        "QUANTIDADE ENTREGUE NA UNIDADE" (some "1") "(Nenhum)" none "(Nenhum)" none
      = [[("DESCRIÇÃO DO ITEM RESUMIDA", some "x"), ("QUANTIDADE ENTREGUE NA UNIDADE", some "1")]]
      ∧ applyFiltros ["DESCRIÇÃO DO ITEM RESUMIDA", "QUANTIDADE ENTREGUE NA UNIDADE"]
        [[("DESCRIÇÃO DO ITEM RESUMIDA", some "x"), ("QUANTIDADE ENTREGUE NA UNIDADE", some "1")],
         [("DESCRIÇÃO DO ITEM RESUMIDA", some "y"), ("QUANTIDADE ENTREGUE NA UNIDADE", some "2")]]
        "DESCRIÇÃO DO ITEM RESUMIDA" none "(Nenhum)" none
        "(Nenhum)" none "(Nenhum)" none "(Nenhum)" none
      ≠ [[("DESCRIÇÃO DO ITEM RESUMIDA", some "x"), ("QUANTIDADE ENTREGUE NA UNIDADE", some "1")]]
      ∧ "QUANTIDADE ENTREGUE NA UNIDADE"
          ∈ "(Nenhum)" :: restantes3
              (opcoes_presentes ["DESCRIÇÃO DO ITEM RESUMIDA", "QUANTIDADE ENTREGUE NA UNIDADE"])
              "DESCRIÇÃO DO ITEM RESUMIDA" "(Nenhum)" := by
  refine ⟨by decide, by decide, by decide⟩

/-! ## Authentication (`auth.py`)

A credential entry (`auth.py` docstring lines 110-113) always carries a
password representation, a display name and a role.  Bcrypt is an external
library: hashing and check are taken as parameters (`hashFn`, `bc`); the
`try/except` around `bcrypt.checkpw` makes the real check total, which the
boolean-valued parameter reflects. -/

structure UserRec where
  password : String
  name : String
  role : String
deriving DecidableEq

/-- `AuthManager._is_bcrypt` (`auth.py` lines 26-28):
`value.startswith(("$2a$", "$2b$", "$2y$"))`. -/
def is_bcrypt (v : String) : Bool :=
  isPrefB "$2a$".data v.data || isPrefB "$2b$".data v.data || isPrefB "$2y$".data v.data

/-- `AuthManager._verify` (`auth.py` lines 35-46). -/
def verify (bc : String → String → Bool) (password stored : String) : Bool :=
  if is_bcrypt stored then bc password stored else password == stored

/-- `AuthManager.authenticate` (`auth.py` lines 142-146). -/
def authenticate (bc : String → String → Bool) (users : List (String × UserRec))
    (u p : String) : Bool :=
  match alook users u with
  | none => false
  | some ur => verify bc p ur.password

/-- **C2.** `authenticate` returns `false` when the username is absent;
when present it succeeds iff the password verifies against the stored
representation: the bcrypt check when the stored value has a bcrypt-hash
prefix (`$2a$`/`$2b$`/`$2y$`), plain string equality otherwise. -/
theorem authenticate_spec (bc : String → String → Bool)
    (users : List (String × UserRec)) (u p : String) :
    (alook users u = none → authenticate bc users u p = false)
      ∧ (∀ ur, alook users u = some ur →
          (authenticate bc users u p = true ↔
            ((is_bcrypt ur.password = true ∧ bc p ur.password = true)
              ∨ (is_bcrypt ur.password = false ∧ p = ur.password)))) := by
  constructor
  · intro h
    simp [authenticate, h]
  · intro ur h
    simp only [authenticate, h]
    unfold verify
    by_cases hb : is_bcrypt ur.password
    · simp [hb]
    · simp only [Bool.not_eq_true] at hb
      simp [hb]

theorem authenticate_spec_witness :
    authenticate (fun _ _ => false) [("alice", ⟨"secret", "Alice", "user"⟩)]
        "alice" "secret" = true
      ∧ authenticate (fun _ _ => false) [("alice", ⟨"secret", "Alice", "user"⟩)]
        "bob" "secret" = false := by
  constructor
  · exact ((authenticate_spec (fun _ _ => false) _ "alice" "secret").2
      ⟨"secret", "Alice", "user"⟩ (by decide)).mpr (Or.inr ⟨by decide, rfl⟩)
  · exact (authenticate_spec (fun _ _ => false) _ "bob" "secret").1 (by decide)

/-! ### Credential loading (`auth.py` lines 50-133)

`st.secrets["credentials"]` is a TOML-like table whose values are strings or
nested tables.  `reprT` stands for Python's `str()` applied to a dict value
(its exact text is irrelevant to the claims, so it is a parameter). -/

inductive SVal where
  | s (v : String)
  | t (fields : List (String × SVal))

/-- Python truthiness of a secrets value (`""` and `{}` are falsy). -/
def vTruthy : SVal → Bool
  | .s v => !(v == "")
  | .t m => !m.isEmpty

/-- Python `a or b` over an optional secrets value (missing key → `None`). -/
def orV (a : Option SVal) (b : SVal) : SVal :=
  match a with
  | some v => if vTruthy v then v else b
  | none => b

/-- Python `str()` of a secrets value. -/
def strOfV (reprT : List (String × SVal) → String) : SVal → String
  | .s v => v
  | .t m => reprT m

/-- `AuthManager._load_from_secrets` (`auth.py` lines 50-106).  `none` models
"no `st.secrets` / no `credentials` section".  Shape 1 (flat `usuario`/`senha`
entry, with `usuario` a string) yields a single entry; otherwise shape 2
iterates the section keeping table-valued entries with a truthy password. -/
def load_from_secrets (reprT : List (String × SVal) → String)
    (sec? : Option (List (String × SVal))) : List (String × UserRec) :=
  match sec? with
  | none => []
  | some sec =>
    match alook sec "usuario", alook sec "senha" with
    | some (.s u), some senha =>
      let username := String.mk (pyStrip u.data)
      let stored := strOfV reprT senha
      let name := strOfV reprT (orV (alook sec "nome") (orV (alook sec "name") (.s username)))
      let role := strOfV reprT (orV (alook sec "role") (.s "user"))
      [(username, ⟨stored, name, role⟩)]
    | _, _ =>
      sec.foldl (fun acc p =>
        match p.2 with
        | .s _ => acc
        | .t ud =>
          let stored := match alook ud "password" with
            | some v => strOfV reprT v
            | none => ""
          let name := strOfV reprT (orV (alook ud "name") (orV (alook ud "nome") (.s p.1)))
          let role := strOfV reprT (orV (alook ud "role") (.s "user"))
          if stored == "" then acc else dinsert acc p.1 ⟨stored, name, role⟩) []

/-- A raw `credentials.json` entry before normalization (fields may be
missing); `none` at file level models "file absent or unparseable". -/
structure JsonRec where
  password : Option String
  name : Option String
  role : Option String
deriving DecidableEq

/-- `AuthManager._load_from_json` (`auth.py` lines 108-127): defaults are
`""` for the password, the username for the name, `"user"` for the role. -/
def load_from_json (file? : Option (List (String × JsonRec))) :
    List (String × UserRec) :=
  match file? with
  | none => []
  | some data =>
    data.map (fun p => (p.1, ⟨p.2.password.getD "", p.2.name.getD p.1, p.2.role.getD "user"⟩))

/-- `AuthManager._load_credentials` (`auth.py` lines 129-133). -/
def load_credentials (reprT : List (String × SVal) → String)
    (sec? : Option (List (String × SVal)))
    (file? : Option (List (String × JsonRec))) : List (String × UserRec) :=
  let creds := load_from_secrets reprT sec?
  if creds.isEmpty then load_from_json file? else creds

/-- **C7.** Credential resolution uses exactly one source: when the secrets
section yields a non-empty entry set (in either supported shape) that set is
the result and the JSON file is irrelevant (any file contents give the same
result); only when the secrets yield nothing is the JSON file loaded.  The
two sources are never merged. -/
theorem load_credentials_prefers_secrets (reprT : List (String × SVal) → String)
    (sec? : Option (List (String × SVal)))
    (file? : Option (List (String × JsonRec))) :
    (load_from_secrets reprT sec? ≠ [] →
        load_credentials reprT sec? file? = load_from_secrets reprT sec?
          ∧ ∀ file2, load_credentials reprT sec? file? = load_credentials reprT sec? file2)
      ∧ (load_from_secrets reprT sec? = [] →
          load_credentials reprT sec? file? = load_from_json file?) := by
  constructor
  · intro h
    have he : (load_from_secrets reprT sec?).isEmpty = false := by
      cases hc : load_from_secrets reprT sec? with
      | nil => exact absurd hc h
      | cons a t => rfl
    constructor
    · simp [load_credentials, he]
    · intro file2
      simp [load_credentials, he]
  · intro h
    simp [load_credentials, h]

theorem load_credentials_prefers_secrets_witness :
    load_credentials (fun _ => "")
        (some [("usuario", SVal.s "sespe"), ("senha", SVal.s "pw")])
        (some [("bob", ⟨some "x", none, none⟩)])
      = [("sespe", ⟨"pw", "sespe", "user"⟩)] := by
  have h := (load_credentials_prefers_secrets (fun _ => "")
      (some [("usuario", SVal.s "sespe"), ("senha", SVal.s "pw")])
      (some [("bob", ⟨some "x", none, none⟩)])).1 (by decide)
  rw [h.1]
  decide

/-- The mutable state of an `AuthManager` together with its environment: the
in-memory user dict, the contents of `credentials.json`, and the (read-only)
secrets section. -/
structure AuthState where
  users : List (String × UserRec)
  jsonFile : List (String × UserRec)
  secrets : Option (List (String × SVal))

/-- `AuthManager.add_user` (`auth.py` lines 148-160) together with
`_save_credentials_json` (lines 135-138): rejects an existing username,
otherwise stores `hashFn password` (a fresh bcrypt hash) and persists the
whole user dict to the JSON file. -/
def add_user (hashFn : String → String) (st : AuthState)
    (u p n role : String) : Bool × AuthState :=
  if (alook st.users u).isSome then (false, st)
  else
    let users2 := dinsert st.users u ⟨hashFn p, n, role⟩
    (true, { st with users := users2, jsonFile := users2 })

/-- **C5.** `add_user` returns `false` and changes nothing (neither the user
map nor the file) when the username exists; otherwise it returns `true`,
appends an entry whose stored password is the freshly computed hash of the
given password, persists the full credential set to the JSON file, and never
touches the secrets source. -/
theorem add_user_spec (hashFn : String → String) (st : AuthState)
    (u p n role : String) :
    ((alook st.users u).isSome → add_user hashFn st u p n role = (false, st))
      ∧ (alook st.users u = none →
          (add_user hashFn st u p n role).1 = true
            ∧ (add_user hashFn st u p n role).2.users
                = st.users ++ [(u, ⟨hashFn p, n, role⟩)]
            ∧ (add_user hashFn st u p n role).2.jsonFile
                = (add_user hashFn st u p n role).2.users
            ∧ (add_user hashFn st u p n role).2.secrets = st.secrets) := by
  constructor
  · intro h
    simp [add_user, h]
  · intro h
    have hs : (alook st.users u).isSome = false := by simp [h]
    refine ⟨?_, ?_, ?_, ?_⟩ <;>
      simp [add_user, hs, dinsert_of_alook_none h]

theorem add_user_spec_witness :
    (add_user (fun p => "$2b$12$" ++ p) ⟨[], [], none⟩ "alice" "pw" "Alice" "admin").2.users
        = [("alice", ⟨"$2b$12$pw", "Alice", "admin"⟩)]
      ∧ add_user (fun p => "$2b$12$" ++ p)
          ⟨[("alice", ⟨"x", "y", "z"⟩)], [], none⟩ "alice" "pw" "A" "r"
        = (false, ⟨[("alice", ⟨"x", "y", "z"⟩)], [], none⟩) := by
  constructor
  · have h := (add_user_spec (fun p => "$2b$12$" ++ p) ⟨[], [], none⟩
      "alice" "pw" "Alice" "admin").2 (by decide)
    rw [h.2.1]
    rfl
  · exact (add_user_spec (fun p => "$2b$12$" ++ p)
      ⟨[("alice", ⟨"x", "y", "z"⟩)], [], none⟩ "alice" "pw" "A" "r").1 (by decide)

/-! ## Numeric coercion for the chart (`app.py` lines 497-504)

```python
def to_number(v):
    if pd.isna(v):
        return 0.0
    x = str(v).strip().replace("R$", "").replace(" ", "").replace(".", "").replace(",", ".")
    try:
        return float(x)
    except Exception:
        return 0.0
```

`replaceL` models `str.replace` (all non-overlapping occurrences, left to
right); `parsePyFloat` models the `float()` literal grammar — optional
surrounding whitespace, optional sign, `inf`/`infinity`/`nan`
(case-insensitive), or a decimal with optional fraction and exponent, with
underscores allowed only between digits.  A finite value is represented
exactly as a decimal `num m s` denoting `m / 10^s` (binary-float rounding is
irrelevant to the claim). -/

inductive PyFloat where
  | num (mant : Int) (scale : Nat)
  | inf (neg : Bool)
  | nan
deriving DecidableEq

/-- `str.replace pat rep` on character lists, structurally recursive on a
fuel argument (each step consumes at least one character, so fuel =
input length always suffices). -/
def replaceFuel (pat rep : List Char) : Nat → List Char → List Char
  | _, [] => []
  | 0, l => l
  | fuel + 1, c :: rest =>
    if isPrefB pat (c :: rest) then rep ++ replaceFuel pat rep fuel (rest.drop (pat.length - 1))
    else c :: replaceFuel pat rep fuel rest

/-- `str.replace pat rep` (all non-overlapping occurrences, left to right;
`pat` is non-empty at every call site). -/
def replaceL (pat rep : List Char) (l : List Char) : List Char :=
  replaceFuel pat rep l.length l

/-- The cleaning chain of `to_number`: strip, drop `R$`, spaces and thousands
dots, turn the decimal comma into a dot. -/
def cleanNumber (s : String) : List Char :=
  replaceL ",".data ['.']
    (replaceL ".".data []
      (replaceL " ".data []
        (replaceL "R$".data [] (pyStrip s.data))))

def digitVal (c : Char) : Option Nat :=
  if '0' ≤ c ∧ c ≤ '9' then some (c.toNat - 48) else none

def isDigitB (c : Char) : Bool := (digitVal c).isSome

/-- Underscores in a Python numeric literal are legal only between two
digits. -/
def uokAux : Option Char → List Char → Bool
  | _, [] => true
  | prev, c :: rest =>
    if c = '_' then
      match prev, rest with
      | some p, n :: _ => ((digitVal p).isSome && (digitVal n).isSome) && uokAux (some c) rest
      | _, _ => false
    else uokAux (some c) rest

def natOfDigits (ds : List Char) : Nat :=
  ds.foldl (fun a c => a * 10 + ((digitVal c).getD 0)) 0

/-- Apply a decimal exponent to `m / 10^sc`. -/
def applyExp (m : Int) (sc : Nat) : Int → Int × Nat
  | .ofNat k => (m * 10 ^ k, sc)
  | .negSucc k => (m, sc + k + 1)

/-- Exponent tail after `e`/`E`: optional sign then a non-empty digit run. -/
def parseExpDigits (l : List Char) : Option Int :=
  match l with
  | '+' :: r => if r.isEmpty then none else if r.all isDigitB then some (natOfDigits r : Int) else none
  | '-' :: r => if r.isEmpty then none else if r.all isDigitB then some (-(natOfDigits r : Int)) else none
  | r => if r.isEmpty then none else if r.all isDigitB then some (natOfDigits r : Int) else none

/-- Unsigned decimal: `digits [. digits] [e exp]` with at least one digit;
yields (mantissa, scale). -/
def parseMantissaExp (l : List Char) : Option (Int × Nat) :=
  let intds := l.takeWhile isDigitB
  let rest := l.drop intds.length
  match rest with
  | '.' :: r2 =>
    let frds := r2.takeWhile isDigitB
    let rest2 := r2.drop frds.length
    if intds.isEmpty && frds.isEmpty then none
    else
      let m : Int := (natOfDigits intds : Int) * 10 ^ frds.length + (natOfDigits frds : Int)
      match rest2 with
      | [] => some (m, frds.length)
      | c :: r3 =>
        if c = 'e' ∨ c = 'E' then (parseExpDigits r3).map (applyExp m frds.length) else none
  | [] => if intds.isEmpty then none else some ((natOfDigits intds : Int), 0)
  | c :: r3 =>
    if intds.isEmpty then none
    else if c = 'e' ∨ c = 'E' then (parseExpDigits r3).map (applyExp (natOfDigits intds) 0)
    else none

def parseBody (neg : Bool) (l : List Char) : Option PyFloat :=
  let low := l.map lowerChar
  if low = "inf".data ∨ low = "infinity".data then some (.inf neg)
  else if low = "nan".data then some .nan
  else (parseMantissaExp l).map (fun p => .num (if neg then -p.1 else p.1) p.2)

/-- Python `float()` on a string: surrounding whitespace stripped, optional
sign, named specials or a decimal literal; `none` models `ValueError`. -/
def parsePyFloat (l0 : List Char) : Option PyFloat :=
  let l1 := pyStrip l0
  if uokAux none l1 = false then none
  else
    let l2 := l1.filter (fun c => c != '_')
    match l2 with
    | '+' :: r => parseBody false r
    | '-' :: r => parseBody true r
    | r => parseBody false r

/-- `to_number` (`app.py` lines 497-504); `none` models a NaN cell
(`pd.isna`). -/
def to_number (v : Option String) : PyFloat :=
  match v with
  | none => .num 0 0
  | some s => (parsePyFloat (cleanNumber s)).getD (.num 0 0)

/-- **C8.** `to_number` is total (it is a Lean function into `PyFloat`, with
no error outcome — the `try/except` catches the only fallible step): a missing
(NaN) value yields zero, a value whose cleaned string does not parse as a
Python float yields zero, and a parseable value yields its parse. -/
theorem to_number_total_spec (v : Option String) :
    (v = none → to_number v = .num 0 0)
      ∧ (∀ s, v = some s → parsePyFloat (cleanNumber s) = none → to_number v = .num 0 0)
      ∧ (∀ s f, v = some s → parsePyFloat (cleanNumber s) = some f → to_number v = f) := by
  refine ⟨?_, ?_, ?_⟩
  · intro h
    subst h
    rfl
  · intro s hv hp
    subst hv
    simp [to_number, hp]
  · intro s f hv hp
    subst hv
    simp [to_number, hp]

theorem to_number_total_spec_witness :
    to_number (some "R$ 1.234,56") = PyFloat.num 123456 2
      ∧ to_number (some "abc") = PyFloat.num 0 0
      ∧ to_number none = PyFloat.num 0 0 := by
  refine ⟨?_, ?_, ?_⟩
  · exact (to_number_total_spec (some "R$ 1.234,56")).2.2 "R$ 1.234,56" _ rfl (by decide)
  · exact (to_number_total_spec (some "abc")).2.1 "abc" rfl (by decide)
  · exact (to_number_total_spec none).1 rfl

/-! ## Widget keys of the value selectors (`app.py` lines 358-427)

Each rendered selectbox passes a `key=f"..._{reset_key}"`; a key is
registered exactly when the corresponding widget is instantiated (the value
selector of step `k ≥ 2` only when the step chose a real column). -/

def valor4_key (reset : String) : String := "valor4_" ++ reset

/-- Step 5's value-selector key as written at `app.py` line 424:
`key=f"valor4_{reset_key}"` (sic). -/
def valor5_key (reset : String) : String := "valor4_" ++ reset

/-- The keys of the value-selector widgets registered during one render,
given the columns chosen at steps 2-5 (step 1's selector always renders). -/
def value_widget_keys (cols : List String) (f2 f3 f4 f5 : String) (reset : String) :
    List String :=
  ["valor1_" ++ reset]
    ++ (if f2 != "(Nenhum)" && cols.contains f2 then ["valor2_" ++ reset] else [])
    ++ (if f3 != "(Nenhum)" && cols.contains f3 then ["valor3_" ++ reset] else [])
    ++ (if f4 != "(Nenhum)" && cols.contains f4 then [valor4_key reset] else [])
    ++ (if f5 != "(Nenhum)" && cols.contains f5 then [valor5_key reset] else [])

/-- **C10.** Step 5's value selector reuses step 4's widget key: it is the
string `"valor4_"` followed by the reset key, so whenever steps 4 and 5 both
choose real columns, two registered value-selector widgets carry the same
key. -/
theorem duplicate_valor_keys (cols : List String) (f2 f3 f4 f5 reset : String)
    (h4a : f4 ≠ "(Nenhum)") (h4b : f4 ∈ cols)
    (h5a : f5 ≠ "(Nenhum)") (h5b : f5 ∈ cols) :
    valor5_key reset = "valor4_" ++ reset
      ∧ valor5_key reset = valor4_key reset
      ∧ 2 ≤ (value_widget_keys cols f2 f3 f4 f5 reset).count (valor4_key reset) := by
  refine ⟨rfl, rfl, ?_⟩
  have g4 : (f4 != "(Nenhum)" && cols.contains f4) = true := by
    simp [h4a, List.elem_iff, h4b]
  have g5 : (f5 != "(Nenhum)" && cols.contains f5) = true := by
    simp [h5a, List.elem_iff, h5b]
  simp only [value_widget_keys, g4, g5, if_true, valor5_key, List.count_append]
  have h1 : ([valor4_key reset].count (valor4_key reset)) = 1 := by
    simp
  have h2 : (["valor4_" ++ reset].count (valor4_key reset)) = 1 := by
    simp [valor4_key]
  omega

/-! ## Merging the sheets into canonical columns (`app.py` lines 291-309)

```python
for alvo in ALVO_NOMES.keys():
    if alvo not in df_work.columns:
        df_work[alvo] = None
for aba in df_work["ABA"].unique():
    mask = df_work["ABA"] == aba
    m = aba_col_mapeios.get(aba, {})
    for alvo in ALVO_NOMES.keys():
        col_real = m.get(alvo)
        if not col_real:
            continue
        if col_real == alvo:
            continue
        if col_real in df_work.columns and alvo in df_work.columns:
            df_work.loc[mask, alvo] = df_work.loc[mask, col_real]
```

The dataframe is modelled row-aligned: a row carries its `ABA` tag and its
cells; `df.loc[mask, alvo] = df.loc[mask, col_real]` copies within each row
of the masked sheet.  The column list is carried separately (`df.cols`). -/

structure DRow where
  aba : String
  cells : List (String × Option String)
deriving DecidableEq

def getCell (r : DRow) (c : String) : Option String :=
  match alook r.cells c with
  | some v => v
  | none => none

def setCell (r : DRow) (c : String) (v : Option String) : DRow :=
  { r with cells := dinsert r.cells c v }

structure DFrame where
  cols : List String
  rows : List DRow
deriving DecidableEq

theorem setCell_aba (r : DRow) (c : String) (v : Option String) :
    (setCell r c v).aba = r.aba := rfl

theorem alook_dinsert_same {κ α : Type} [DecidableEq κ] (m : List (κ × α)) (k : κ) (v : α) :
    alook (dinsert m k v) k = some v := by
  induction m with
  | nil => simp [dinsert, alook]
  | cons p t ih =>
    obtain ⟨pk, pv⟩ := p
    by_cases hk : pk = k
    · simp [dinsert, hk, alook]
    · simp [dinsert, hk, alook, ih]

theorem alook_dinsert_ne {κ α : Type} [DecidableEq κ] (m : List (κ × α)) (k k2 : κ) (v : α)
    (h : k2 ≠ k) : alook (dinsert m k v) k2 = alook m k2 := by
  induction m with
  | nil =>
    show (if k = k2 then some v else none) = none
    rw [if_neg (Ne.symm h)]
  | cons p t ih =>
    obtain ⟨pk, pv⟩ := p
    by_cases hk : pk = k
    · subst hk
      rw [show dinsert ((pk, pv) :: t) pk v = (pk, v) :: t from by simp [dinsert]]
      rw [alook_cons, alook_cons, if_neg (Ne.symm h), if_neg (Ne.symm h)]
    · rw [show dinsert ((pk, pv) :: t) k v = (pk, pv) :: dinsert t k v from by
        simp [dinsert, hk]]
      rw [alook_cons, alook_cons, ih]

theorem getCell_setCell_same (r : DRow) (c : String) (v : Option String) :
    getCell (setCell r c v) c = v := by
  simp [getCell, setCell, alook_dinsert_same]

theorem getCell_setCell_ne (r : DRow) (c c2 : String) (v : Option String) (h : c2 ≠ c) :
    getCell (setCell r c v) c2 = getCell r c2 := by
  simp [getCell, setCell, alook_dinsert_ne _ _ _ _ h]

theorem contains_true_of_mem {a : String} {l : List String} (h : a ∈ l) :
    l.contains a = true := List.elem_iff.mpr h

theorem contains_false_of_not_mem {a : String} {l : List String} (h : a ∉ l) :
    l.contains a = false := by
  cases hc : l.contains a
  · rfl
  · exact absurd (List.elem_iff.mp hc) h

/-- The inner merge-loop body for one target field, restricted to one row of
the sheet being processed (including the `if not col_real` and
`col_real == alvo` skips and the column-existence guard). -/
def copyRowStep (m : List (String × String)) (cols : List String) (r : DRow)
    (alvo : String) : DRow :=
  match alook m alvo with
  | none => r
  | some colReal =>
    if colReal = "" then r
    else if colReal = alvo then r
    else if colReal ∈ cols ∧ alvo ∈ cols then
      setCell r alvo (getCell r colReal)
    else r

/-- All target fields processed in `ALVO_NOMES` order, on a single row. -/
def rowMerge (m : List (String × String)) (cols : List String)
    (keys : List String) (r : DRow) : DRow :=
  keys.foldl (copyRowStep m cols) r

/-- The creation loop on one row: set each target absent from the original
column list to null. -/
def createRow (cols0 : List String) (keys : List String) (r : DRow) : DRow :=
  keys.foldl (fun r2 k => if k ∈ cols0 then r2 else setCell r2 k none) r

theorem copyRowStep_aba (m : List (String × String)) (cols : List String) (r : DRow)
    (alvo : String) : (copyRowStep m cols r alvo).aba = r.aba := by
  cases hm : alook m alvo with
  | none => simp [copyRowStep, hm]
  | some colReal =>
    simp only [copyRowStep, hm]
    split_ifs <;> rfl

theorem rowMerge_aba (m : List (String × String)) (cols : List String) :
    ∀ keys r, (rowMerge m cols keys r).aba = r.aba := by
  intro keys
  induction keys with
  | nil => intro r; rfl
  | cons k ks ih =>
    intro r
    show (rowMerge m cols ks (copyRowStep m cols r k)).aba = r.aba
    rw [ih, copyRowStep_aba]

theorem createRow_aba (cols0 : List String) :
    ∀ keys r, (createRow cols0 keys r).aba = r.aba := by
  intro keys
  induction keys with
  | nil => intro r; rfl
  | cons k ks ih =>
    intro r
    show (createRow cols0 ks (if k ∈ cols0 then r else setCell r k none)).aba = r.aba
    rw [ih]
    split_ifs <;> rfl

theorem getCell_copyRowStep_ne (m : List (String × String)) (cols : List String) (r : DRow)
    (alvo c : String) (h : c ≠ alvo) :
    getCell (copyRowStep m cols r alvo) c = getCell r c := by
  cases hm : alook m alvo with
  | none => simp [copyRowStep, hm]
  | some colReal =>
    simp only [copyRowStep, hm]
    split_ifs <;> first
      | rfl
      | exact getCell_setCell_ne r alvo c (getCell r colReal) h

theorem rowMerge_frame (m : List (String × String)) (cols : List String) :
    ∀ keys c r, c ∉ keys →
      getCell (rowMerge m cols keys r) c = getCell r c := by
  intro keys
  induction keys with
  | nil => intro c r _; rfl
  | cons k ks ih =>
    intro c r h
    have hck : c ≠ k := fun he => h (he ▸ List.mem_cons_self k ks)
    have hks : c ∉ ks := fun he => h (List.mem_cons_of_mem k he)
    show getCell (rowMerge m cols ks (copyRowStep m cols r k)) c = getCell r c
    rw [ih c _ hks, getCell_copyRowStep_ne m cols r k c hck]

theorem createRow_frame (cols0 : List String) :
    ∀ keys c r, c ∉ keys →
      getCell (createRow cols0 keys r) c = getCell r c := by
  intro keys
  induction keys with
  | nil => intro c r _; rfl
  | cons k ks ih =>
    intro c r h
    have hck : c ≠ k := fun he => h (he ▸ List.mem_cons_self k ks)
    have hks : c ∉ ks := fun he => h (List.mem_cons_of_mem k he)
    show getCell (createRow cols0 ks (if k ∈ cols0 then r else setCell r k none)) c
        = getCell r c
    rw [ih c _ hks]
    split_ifs with hk
    · rfl
    · exact getCell_setCell_ne r k c none hck

theorem copyRowStep_skip (m : List (String × String)) (cols : List String) (r : DRow)
    (alvo : String) (h : alook m alvo = some alvo ∨ alook m alvo = none) :
    copyRowStep m cols r alvo = r := by
  rcases h with h | h
  · simp only [copyRowStep, h]
    split_ifs <;> rfl
  · simp [copyRowStep, h]

theorem rowMerge_skip (m : List (String × String)) (cols : List String) :
    ∀ keys alvo r, (alook m alvo = some alvo ∨ alook m alvo = none) →
      getCell (rowMerge m cols keys r) alvo = getCell r alvo := by
  intro keys
  induction keys with
  | nil => intro alvo r _; rfl
  | cons k ks ih =>
    intro alvo r h
    show getCell (rowMerge m cols ks (copyRowStep m cols r k)) alvo = getCell r alvo
    rw [ih alvo _ h]
    by_cases hk : k = alvo
    · rw [hk, copyRowStep_skip m cols r alvo h]
    · exact getCell_copyRowStep_ne m cols r k alvo (fun he => hk he.symm)

theorem createRow_null (cols0 : List String) :
    ∀ keys k r, keys.Nodup → k ∈ keys → k ∉ cols0 →
      getCell (createRow cols0 keys r) k = none := by
  intro keys
  induction keys with
  | nil => intro k r _ hk _; exact absurd hk (List.not_mem_nil k)
  | cons k2 ks ih =>
    intro k r hnd hk hc
    show getCell (createRow cols0 ks (if k2 ∈ cols0 then r else setCell r k2 none)) k
        = none
    rcases List.mem_cons.mp hk with he | hm
    · subst he
      have hknotks : k ∉ ks := (List.nodup_cons.mp hnd).1
      rw [createRow_frame cols0 ks k _ hknotks, if_neg hc]
      exact getCell_setCell_same r k none
    · exact ih k _ (List.nodup_cons.mp hnd).2 hm hc

theorem rowMerge_copy (m : List (String × String)) (cols : List String) :
    ∀ keys alvo colReal r, keys.Nodup → alvo ∈ keys →
      alook m alvo = some colReal → colReal ∉ keys → colReal ≠ "" →
      colReal ∈ cols → alvo ∈ cols →
      getCell (rowMerge m cols keys r) alvo = getCell r colReal := by
  intro keys
  induction keys with
  | nil => intro alvo colReal r _ hm; exact absurd hm (List.not_mem_nil _)
  | cons k ks ih =>
    intro alvo colReal r hnd hmem hlk hout hne hccr hca
    show getCell (rowMerge m cols ks (copyRowStep m cols r k)) alvo = getCell r colReal
    rcases List.mem_cons.mp hmem with he | hm
    · subst he
      have halvoks : alvo ∉ ks := (List.nodup_cons.mp hnd).1
      have hcra : colReal ≠ alvo := fun he2 => hout (he2 ▸ hmem)
      rw [rowMerge_frame m cols ks alvo _ halvoks]
      simp only [copyRowStep, hlk]
      rw [if_neg hne, if_neg hcra, if_pos (And.intro hccr hca)]
      exact getCell_setCell_same r alvo (getCell r colReal)
    · have hkcr : k ≠ colReal := fun he2 => hout (he2 ▸ List.mem_cons_self k ks)
      rw [ih alvo colReal _ (List.nodup_cons.mp hnd).2 hm hlk
        (fun hh => hout (List.mem_cons_of_mem _ hh)) hne hccr hca]
      exact getCell_copyRowStep_ne m cols r k colReal (fun he2 => hkcr he2.symm)

/-- `df_work[alvo] = None`: append the column, null in every row. -/
def addNull (df : DFrame) (alvo : String) : DFrame :=
  ⟨df.cols ++ [alvo], df.rows.map (fun r => setCell r alvo none)⟩

/-- The creation loop over the target fields (`app.py` lines 293-295). -/
def createGo (keys : List String) (df : DFrame) : DFrame :=
  keys.foldl (fun d k => if k ∈ d.cols then d else addNull d k) df

def createStep (df : DFrame) : DFrame := createGo ALVO_KEYS df

/-- `df_work.loc[mask, alvo] = df_work.loc[mask, col_real]`. -/
def copyStep (aba alvo colReal : String) (df : DFrame) : DFrame :=
  ⟨df.cols, df.rows.map (fun r => if r.aba = aba then setCell r alvo (getCell r colReal) else r)⟩

/-- One iteration of the inner loop (lines 300-309), at frame level. -/
def copyFieldStep (m : List (String × String)) (aba : String) (d : DFrame)
    (alvo : String) : DFrame :=
  match alook m alvo with
  | none => d
  | some colReal =>
    if colReal = "" then d
    else if colReal = alvo then d
    else if colReal ∈ d.cols ∧ alvo ∈ d.cols then copyStep aba alvo colReal d
    else d

/-- The inner loop over target fields for one sheet (`m = aba_col_mapeios.get(aba, {})`). -/
def bodyGo (mapeios : List (String × List (String × String))) (keys : List String)
    (df : DFrame) (aba : String) : DFrame :=
  keys.foldl (copyFieldStep ((alook mapeios aba).getD []) aba) df

/-- `pandas.Series.unique()`: distinct values in first-occurrence order. -/
def uniqFirstGo (seen : List String) : List String → List String
  | [] => []
  | a :: t => if a ∈ seen then uniqFirstGo seen t else a :: uniqFirstGo (a :: seen) t

def uniqFirst (l : List String) : List String := uniqFirstGo [] l

/-- The whole merge block (`app.py` lines 291-309). -/
def mergeAll (mapeios : List (String × List (String × String))) (df : DFrame) : DFrame :=
  let d1 := createStep df
  (uniqFirst (d1.rows.map DRow.aba)).foldl (bodyGo mapeios ALVO_KEYS) d1

theorem mem_uniqFirstGo :
    ∀ (l seen : List String) (a : String),
      a ∈ uniqFirstGo seen l ↔ (a ∈ l ∧ a ∉ seen) := by
  intro l
  induction l with
  | nil => intro seen a; simp [uniqFirstGo]
  | cons b t ih =>
    intro seen a
    by_cases hb : b ∈ seen
    · rw [show uniqFirstGo seen (b :: t) = uniqFirstGo seen t by
        simp only [uniqFirstGo]; rw [if_pos hb]]
      rw [ih]
      constructor
      · rintro ⟨ha, hs⟩
        exact ⟨List.mem_cons_of_mem _ ha, hs⟩
      · rintro ⟨ha, hs⟩
        rcases List.mem_cons.mp ha with he | hm
        · subst he
          exact absurd hb hs
        · exact ⟨hm, hs⟩
    · rw [show uniqFirstGo seen (b :: t) = b :: uniqFirstGo (b :: seen) t by
        simp only [uniqFirstGo]; rw [if_neg hb]]
      rw [List.mem_cons, ih]
      constructor
      · rintro (he | ⟨ha, hs⟩)
        · subst he
          exact ⟨List.mem_cons_self a t, fun hc => hb hc⟩
        · exact ⟨List.mem_cons_of_mem _ ha, fun hc => hs (List.mem_cons_of_mem _ hc)⟩
      · rintro ⟨ha, hs⟩
        by_cases hab : a = b
        · exact Or.inl hab
        · rcases List.mem_cons.mp ha with he | hm
          · exact Or.inl he
          · right
            refine ⟨hm, fun hc => ?_⟩
            rcases List.mem_cons.mp hc with he2 | hm2
            · exact hab he2
            · exact hs hm2

theorem uniqFirstGo_nodup :
    ∀ (l seen : List String), (uniqFirstGo seen l).Nodup := by
  intro l
  induction l with
  | nil => intro seen; simp [uniqFirstGo]
  | cons b t ih =>
    intro seen
    by_cases hb : b ∈ seen
    · rw [show uniqFirstGo seen (b :: t) = uniqFirstGo seen t by
        simp only [uniqFirstGo]; rw [if_pos hb]]
      exact ih seen
    · rw [show uniqFirstGo seen (b :: t) = b :: uniqFirstGo (b :: seen) t by
        simp only [uniqFirstGo]; rw [if_neg hb]]
      rw [List.nodup_cons]
      refine ⟨fun hmem => ?_, ih _⟩
      rw [mem_uniqFirstGo] at hmem
      exact hmem.2 (List.mem_cons_self b seen)

theorem createRow_cols_irrel (colsA colsB : List String) :
    ∀ keys r, (∀ k ∈ keys, (k ∈ colsA ↔ k ∈ colsB)) →
      createRow colsA keys r = createRow colsB keys r := by
  intro keys
  induction keys with
  | nil => intro r _; rfl
  | cons k ks ih =>
    intro r h
    show createRow colsA ks (if k ∈ colsA then r else setCell r k none)
        = createRow colsB ks (if k ∈ colsB then r else setCell r k none)
    have hiff := h k (List.mem_cons_self k ks)
    by_cases hA : k ∈ colsA
    · rw [if_pos hA, if_pos (hiff.mp hA)]
      exact ih r (fun k2 hk2 => h k2 (List.mem_cons_of_mem _ hk2))
    · rw [if_neg hA, if_neg (fun hB => hA (hiff.mpr hB))]
      exact ih _ (fun k2 hk2 => h k2 (List.mem_cons_of_mem _ hk2))

theorem createGo_char :
    ∀ (keys : List String) (df : DFrame), keys.Nodup →
      createGo keys df
        = ⟨df.cols ++ keys.filter (fun k => !df.cols.contains k),
           df.rows.map (createRow df.cols keys)⟩ := by
  intro keys
  induction keys with
  | nil =>
    intro df _
    obtain ⟨cols, rows⟩ := df
    show DFrame.mk cols rows = _
    refine congrArg₂ DFrame.mk ?_ ?_
    · simp
    · rw [show createRow cols [] = fun r => r from funext (fun r => rfl), List.map_id']
  | cons k ks ih =>
    intro df hnd
    have hnd2 := List.nodup_cons.mp hnd
    show createGo ks (if k ∈ df.cols then df else addNull df k) = _
    by_cases hk : k ∈ df.cols
    · rw [if_pos hk, ih df hnd2.2]
      refine congrArg₂ DFrame.mk ?_ ?_
      · rw [List.filter_cons]
        simp only [contains_true_of_mem hk, Bool.not_true, Bool.false_eq_true, if_false]
      · apply List.map_congr_left
        intro r _
        show createRow df.cols ks r
            = createRow df.cols ks (if k ∈ df.cols then r else setCell r k none)
        rw [if_pos hk]
    · rw [if_neg hk, ih (addNull df k) hnd2.2]
      have hiffs : ∀ k2 ∈ ks, (k2 ∈ df.cols ++ [k] ↔ k2 ∈ df.cols) := by
        intro k2 hk2
        have hne : k2 ≠ k := fun he => hnd2.1 (he ▸ hk2)
        rw [List.mem_append, List.mem_singleton]
        simp [hne]
      refine congrArg₂ DFrame.mk ?_ ?_
      · show (df.cols ++ [k]) ++ ks.filter (fun k2 => !(df.cols ++ [k]).contains k2)
            = df.cols ++ (k :: ks).filter (fun k2 => !df.cols.contains k2)
        have hfeq : ks.filter (fun k2 => !(df.cols ++ [k]).contains k2)
            = ks.filter (fun k2 => !df.cols.contains k2) := by
          apply List.filter_congr
          intro k2 hk2
          by_cases hm2 : k2 ∈ df.cols
          · rw [contains_true_of_mem hm2,
              contains_true_of_mem ((hiffs k2 hk2).mpr hm2)]
          · rw [contains_false_of_not_mem hm2,
              contains_false_of_not_mem (fun hc => hm2 ((hiffs k2 hk2).mp hc))]
        rw [hfeq, List.filter_cons]
        simp only [contains_false_of_not_mem hk, Bool.not_false, if_true]
        rw [List.append_assoc]
        rfl
      · show (df.rows.map (fun r => setCell r k none)).map (createRow (df.cols ++ [k]) ks)
            = df.rows.map (createRow df.cols (k :: ks))
        rw [List.map_map]
        apply List.map_congr_left
        intro r _
        simp only [Function.comp_apply]
        rw [createRow_cols_irrel (df.cols ++ [k]) df.cols ks (setCell r k none) hiffs]
        show _ = createRow df.cols ks (if k ∈ df.cols then r else setCell r k none)
        rw [if_neg hk]

theorem copyFieldStep_char (m : List (String × String)) (aba : String) (df : DFrame)
    (alvo : String) :
    copyFieldStep m aba df alvo
      = ⟨df.cols, df.rows.map (fun r =>
          if r.aba = aba then copyRowStep m df.cols r alvo else r)⟩ := by
  obtain ⟨cols, rows⟩ := df
  cases hm : alook m alvo with
  | none =>
    simp only [copyFieldStep, hm]
    refine congrArg (DFrame.mk cols) ?_
    rw [show (fun r => if r.aba = aba then copyRowStep m cols r alvo else r) = fun r => r
      from funext (fun r => by simp [copyRowStep, hm])]
    rw [List.map_id']
  | some colReal =>
    by_cases h1 : colReal = ""
    · simp only [copyFieldStep, hm]
      rw [if_pos h1]
      refine congrArg (DFrame.mk cols) ?_
      rw [show (fun r => if r.aba = aba then copyRowStep m cols r alvo else r) = fun r => r
        from funext (fun r => by simp [copyRowStep, hm, h1])]
      rw [List.map_id']
    · by_cases h2 : colReal = alvo
      · simp only [copyFieldStep, hm]
        rw [if_neg h1, if_pos h2]
        refine congrArg (DFrame.mk cols) ?_
        rw [show (fun r => if r.aba = aba then copyRowStep m cols r alvo else r) = fun r => r
          from funext (fun r => by simp [copyRowStep, hm, h1, h2])]
        rw [List.map_id']
      · by_cases h3 : colReal ∈ cols ∧ alvo ∈ cols
        · simp only [copyFieldStep, hm]
          rw [if_neg h1, if_neg h2, if_pos h3]
          refine congrArg (DFrame.mk cols) ?_
          apply List.map_congr_left
          intro r _
          by_cases hra : r.aba = aba
          · rw [if_pos hra, if_pos hra]
            simp only [copyRowStep, hm]
            rw [if_neg h1, if_neg h2, if_pos h3]
          · rw [if_neg hra, if_neg hra]
        · simp only [copyFieldStep, hm]
          rw [if_neg h1, if_neg h2, if_neg h3]
          refine congrArg (DFrame.mk cols) ?_
          rw [show (fun r => if r.aba = aba then copyRowStep m cols r alvo else r) = fun r => r
            from funext (fun r => by simp [copyRowStep, hm, h1, h2, h3])]
          rw [List.map_id']

theorem bodyGo_char (mapeios : List (String × List (String × String))) (aba : String) :
    ∀ (keys : List String) (df : DFrame),
      bodyGo mapeios keys df aba
        = ⟨df.cols, df.rows.map (fun r =>
            if r.aba = aba then
              rowMerge ((alook mapeios aba).getD []) df.cols keys r
            else r)⟩ := by
  intro keys
  induction keys with
  | nil =>
    intro df
    obtain ⟨cols, rows⟩ := df
    show DFrame.mk cols rows = _
    refine congrArg (DFrame.mk cols) ?_
    rw [show (fun r => if r.aba = aba then
          rowMerge ((alook mapeios aba).getD []) cols [] r else r) = fun r => r
      from funext (fun r => by simp [rowMerge])]
    rw [List.map_id']
  | cons k ks ih =>
    intro df
    show bodyGo mapeios ks (copyFieldStep ((alook mapeios aba).getD []) aba df k) aba = _
    rw [copyFieldStep_char, ih]
    refine congrArg (DFrame.mk df.cols) ?_
    rw [List.map_map]
    apply List.map_congr_left
    intro r _
    simp only [Function.comp_apply]
    by_cases hra : r.aba = aba
    · rw [if_pos hra]
      have h2 : (copyRowStep ((alook mapeios aba).getD []) df.cols r k).aba = aba := by
        rw [copyRowStep_aba]; exact hra
      rw [if_pos h2, if_pos hra]
      rfl
    · rw [if_neg hra, if_neg hra, if_neg hra]

theorem foldBody_char (mapeios : List (String × List (String × String))) :
    ∀ (L : List String), L.Nodup → ∀ df : DFrame,
      L.foldl (bodyGo mapeios ALVO_KEYS) df
        = ⟨df.cols, df.rows.map (fun r =>
            if r.aba ∈ L then
              rowMerge ((alook mapeios r.aba).getD []) df.cols ALVO_KEYS r
            else r)⟩ := by
  intro L
  induction L with
  | nil =>
    intro _ df
    obtain ⟨cols, rows⟩ := df
    show DFrame.mk cols rows = _
    refine congrArg (DFrame.mk cols) ?_
    rw [show (fun r => if r.aba ∈ ([] : List String) then
          rowMerge ((alook mapeios r.aba).getD []) cols ALVO_KEYS r else r) = fun r => r
      from funext (fun r => by simp)]
    rw [List.map_id']
  | cons aba L2 ih =>
    intro hnd df
    have hnd2 := List.nodup_cons.mp hnd
    show L2.foldl (bodyGo mapeios ALVO_KEYS) (bodyGo mapeios ALVO_KEYS df aba) = _
    rw [bodyGo_char mapeios aba ALVO_KEYS df, ih hnd2.2]
    refine congrArg (DFrame.mk df.cols) ?_
    rw [List.map_map]
    apply List.map_congr_left
    intro r _
    simp only [Function.comp_apply]
    by_cases hra : r.aba = aba
    · rw [if_pos hra]
      have haba2 : (rowMerge ((alook mapeios aba).getD []) df.cols ALVO_KEYS r).aba
          = r.aba := rowMerge_aba _ _ _ _
      have hnotin : (rowMerge ((alook mapeios aba).getD []) df.cols ALVO_KEYS r).aba ∉ L2 := by
        rw [haba2, hra]
        exact hnd2.1
      rw [if_neg hnotin,
        if_pos (show r.aba ∈ aba :: L2 by rw [hra]; exact List.mem_cons_self aba L2), hra]
    · rw [if_neg hra]
      by_cases hm2 : r.aba ∈ L2
      · rw [if_pos hm2, if_pos (List.mem_cons_of_mem _ hm2)]
      · have hnotc : r.aba ∉ aba :: L2 := by
          intro hc
          rcases List.mem_cons.mp hc with he | hmm2
          · exact hra he
          · exact hm2 hmm2
        rw [if_neg hm2, if_neg hnotc]

/-- **C6.** The merge block: (i) a canonical column is created — appended,
null in every row — exactly when absent from the working table's columns;
(ii) the merged rows arise row-locally: every row is transformed using only
its own sheet's alias mapping (so rows of other sheets are untouched by a
sheet's copy); (iii) columns outside the canonical set are never modified;
(iv) when the mapping is absent or maps a canonical field to itself, that
cell is unchanged (no self-copy); (v) a created-and-unmapped canonical cell
is null; (vi) when the mapping sends a canonical field to a differently-named
real column (outside the canonical set) present in the table, the real
column's value is copied into the canonical cell of that row. -/
theorem merge_spec (mapeios : List (String × List (String × String))) (df : DFrame) :
    (mergeAll mapeios df).cols
        = df.cols ++ ALVO_KEYS.filter (fun k => !df.cols.contains k)
      ∧ (mergeAll mapeios df).rows
        = df.rows.map (fun r =>
            rowMerge ((alook mapeios r.aba).getD [])
              (df.cols ++ ALVO_KEYS.filter (fun k => !df.cols.contains k))
              ALVO_KEYS (createRow df.cols ALVO_KEYS r))
      ∧ (∀ m cols keys r c, c ∉ keys →
            getCell (rowMerge m cols keys r) c = getCell r c)
      ∧ (∀ cols0 keys r c, c ∉ keys →
            getCell (createRow cols0 keys r) c = getCell r c)
      ∧ (∀ m cols keys alvo r, (alook m alvo = some alvo ∨ alook m alvo = none) →
            getCell (rowMerge m cols keys r) alvo = getCell r alvo)
      ∧ (∀ r k, k ∈ ALVO_KEYS → k ∉ df.cols →
            getCell (createRow df.cols ALVO_KEYS r) k = none)
      ∧ (∀ m cols r alvo colReal,
            alook m alvo = some colReal → alvo ∈ ALVO_KEYS → colReal ∉ ALVO_KEYS →
            colReal ≠ "" → colReal ∈ cols → alvo ∈ cols →
            getCell (rowMerge m cols ALVO_KEYS r) alvo = getCell r colReal) := by
  have hkeys : ALVO_KEYS.Nodup := by decide
  have hcs : createStep df
      = DFrame.mk (df.cols ++ ALVO_KEYS.filter (fun k => !df.cols.contains k))
          (df.rows.map (createRow df.cols ALVO_KEYS)) := createGo_char ALVO_KEYS df hkeys
  have hfold := foldBody_char mapeios
    (uniqFirst ((createStep df).rows.map DRow.aba)) (uniqFirstGo_nodup _ _)
    (createStep df)
  refine ⟨?_, ?_, ?_, ?_, ?_, ?_, ?_⟩
  · show ((uniqFirst ((createStep df).rows.map DRow.aba)).foldl
        (bodyGo mapeios ALVO_KEYS) (createStep df)).cols = _
    rw [hfold, hcs]
  · show ((uniqFirst ((createStep df).rows.map DRow.aba)).foldl
        (bodyGo mapeios ALVO_KEYS) (createStep df)).rows = _
    rw [hfold, hcs]
    have hall : ∀ r2 ∈ df.rows.map (createRow df.cols ALVO_KEYS),
        r2.aba ∈ uniqFirst
          ((df.rows.map (createRow df.cols ALVO_KEYS)).map DRow.aba) := by
      intro r2 hr2
      rw [uniqFirst, mem_uniqFirstGo]
      exact ⟨List.mem_map_of_mem DRow.aba hr2, List.not_mem_nil _⟩
    rw [List.map_congr_left (fun r2 hr2 => if_pos (hall r2 hr2))]
    rw [List.map_map]
    apply List.map_congr_left
    intro r _
    simp only [Function.comp_apply]
    rw [createRow_aba]
  · intro m cols keys r c h
    exact rowMerge_frame m cols keys c r h
  · intro cols0 keys r c h
    exact createRow_frame cols0 keys c r h
  · intro m cols keys alvo r h
    exact rowMerge_skip m cols keys alvo r h
  · intro r k hk hc
    exact createRow_null df.cols ALVO_KEYS k r hkeys hk hc
  · intro m cols r alvo colReal hlk hmem hout hne hccr hca
    exact rowMerge_copy m cols ALVO_KEYS alvo colReal r hkeys hmem hlk hout hne hccr hca

theorem merge_spec_witness :
    getCell (rowMerge [("UNIDADE DE DESTINO", "unid")] (["unid", "ABA"] ++ ALVO_KEYS)
        ALVO_KEYS ⟨"Aba1", [("unid", some "X")]⟩) "UNIDADE DE DESTINO" = some "X" := by
  have h := (merge_spec [] ⟨[], []⟩).2.2.2.2.2.2
  rw [h [("UNIDADE DE DESTINO", "unid")] (["unid", "ABA"] ++ ALVO_KEYS)
    ⟨"Aba1", [("unid", some "X")]⟩ "UNIDADE DE DESTINO" "unid"
    (by decide) (by decide) (by decide) (by decide) (by decide) (by decide)]
  decide

theorem duplicate_valor_keys_witness :
    2 ≤ List.count (valor4_key "17")
        (value_widget_keys ["N° OF", "QUANTIDADE ENTREGUE NA UNIDADE"]
          "(Nenhum)" "(Nenhum)" "N° OF" "QUANTIDADE ENTREGUE NA UNIDADE" "17") :=
  (duplicate_valor_keys ["N° OF", "QUANTIDADE ENTREGUE NA UNIDADE"]
    "(Nenhum)" "(Nenhum)" "N° OF" "QUANTIDADE ENTREGUE NA UNIDADE" "17"
    (by decide) (by decide) (by decide) (by decide)).2.2

end BIApp
